import Mathlib

/-!
Verification development for the `rustc_typeck` check-phase core
(`src/compiler/rustc_typeck/src/check/mod.rs`): a shallow embedding of
`UnsafetyState::recurse`, `fixup_opaque_types`, the fallback/selection tail
of `typeck_with_fallback`, and the closure redirection in `typeck` /
`has_typeck_results`, together with theorems about the specified behaviour.
-/

namespace RustcTypeck

/-! ## UnsafetyState (mod.rs, lines 173-212) -/

/-- Unsafety models `hir::Unsafety`; `unsafeTag` stands for the constructor
`Unsafety::Unsafe` (that identifier is a Lean keyword-like token, so it is
renamed), `normal` for `Unsafety::Normal`. -/
inductive Unsafety where
  | unsafeTag
  | normal
deriving DecidableEq

/-- BlockCheckMode models `hir::BlockCheckMode`; the `UserProvided`/
`CompilerGenerated` payloads of the first three constructors are irrelevant
to `recurse` and are dropped. -/
inductive BlockCheckMode where
  | pushUnsafeBlock
  | popUnsafeBlock
  | unsafeBlock
  | defaultBlock
deriving DecidableEq

/-- HirBlock models the two fields of `hir::Block` that
`UnsafetyState::recurse` reads: `rules` and `hir_id` (ids as `Nat`). -/
structure HirBlock where
  rules : BlockCheckMode
  hir_id : Nat
deriving DecidableEq

/-- UnsafetyState models the struct of the same name (mod.rs line 174).
The source field `def` is a Lean keyword and is renamed `defId`;
`unsafe_push_count` is a `u32` in the source and is carried as a `Nat`
together with the explicit `u32` bound in the checked arithmetic below. -/
structure UnsafetyState where
  defId : Nat
  unsafety : Unsafety
  unsafe_push_count : Nat
  from_fn : Bool
deriving DecidableEq

/-- u32Max is `u32::MAX`, the bound enforced by `u32::checked_add`. -/
def u32Max : Nat := 4294967295

/-- u32CheckedAdd models `u32::checked_add` on values already `≤ u32Max`:
`a.checked_add(b)` is `None` exactly when the mathematical sum exceeds
`u32::MAX`. -/
def u32CheckedAdd (a b : Nat) : Option Nat :=
  if a + b ≤ u32Max then some (a + b) else none

/-- u32CheckedSub models `u32::checked_sub`: `a.checked_sub(b)` is `None`
exactly when `b > a`. -/
def u32CheckedSub (a b : Nat) : Option Nat :=
  if b ≤ a then some (a - b) else none

/-- UnsafetyState.function models `UnsafetyState::function` (mod.rs 182). -/
def UnsafetyState.function (unsafety : Unsafety) (defId : Nat) : UnsafetyState :=
  { defId := defId, unsafety := unsafety, unsafe_push_count := 0, from_fn := true }

/-- UnsafetyState.recurse models `UnsafetyState::recurse` (mod.rs 186-211).
The two `.unwrap()` calls on `checked_add`/`checked_sub` panic when the
checked operation yields `None`; a panic is modelled as the result `none`.
The first match arm is the source guard
`hir::Unsafety::Unsafe if self.from_fn => *self`. -/
def UnsafetyState.recurse (s : UnsafetyState) (blk : HirBlock) : Option UnsafetyState :=
  match s.unsafety, s.from_fn with
  | Unsafety.unsafeTag, true => some s
  | u, _ =>
    match blk.rules with
    | BlockCheckMode.pushUnsafeBlock =>
      (u32CheckedAdd s.unsafe_push_count 1).map fun c =>
        { defId := blk.hir_id, unsafety := u, unsafe_push_count := c, from_fn := false }
    | BlockCheckMode.popUnsafeBlock =>
      (u32CheckedSub s.unsafe_push_count 1).map fun c =>
        { defId := blk.hir_id, unsafety := u, unsafe_push_count := c, from_fn := false }
    | BlockCheckMode.unsafeBlock =>
      some { defId := blk.hir_id, unsafety := Unsafety.unsafeTag,
             unsafe_push_count := s.unsafe_push_count, from_fn := false }
    | BlockCheckMode.defaultBlock =>
      some { defId := s.defId, unsafety := u,
             unsafe_push_count := s.unsafe_push_count, from_fn := false }

/-- UnsafetyState.recurseMut makes the `&mut self` receiver of the source
`recurse` explicit: the pair is (receiver after the call, returned value).
The source body only ever reads `self` (it never assigns through it), so the
receiver comes back unchanged; this wrapper is the faithful state-passing
translation of that signature. -/
def UnsafetyState.recurseMut (s : UnsafetyState) (blk : HirBlock) :
    UnsafetyState × Option UnsafetyState :=
  (s, s.recurse blk)

/-! ## fixup_opaque_types (mod.rs, lines 369-447)

A model of the fragment of `rustc_middle`'s type AST that the fixup folder
distinguishes: opaque types (`ty::Opaque(def_id, substs)`) with their
generic-argument lists, type inference variables (`ty::Infer`), generic
parameters (`ty::Param` / `mk_param_from_def`), plus representative
structural types (`tup`, `ref`) whose `super_fold_with` recurses into
components, and representative leaves (`unitTy`). Regions carry
`RegionKind::ReVar` (region inference variable), early-bound parameters and
`'static`; constants carry `ConstKind::Infer`, `ConstKind::Param` and a
concrete value. Mutually inductive custom lists stand for the `substs`
slice and tuple-component slice. -/

/-- MRegion models the region kinds `fixup_opaque_types` distinguishes. -/
inductive MRegion where
  | reVar (n : Nat)
  | reParam (n : Nat)
  | reStatic

/-- MConst models the constant kinds `fixup_opaque_types` distinguishes
(the `ty` field of `ty::Const` is dropped: it plays no role in the fixup
match). -/
inductive MConst where
  | kInfer (n : Nat)
  | kParam (n : Nat)
  | kValue (n : Nat)

mutual
/-- MTy models the fragment of `ty::TyKind` relevant to the fixup folder;
`opaq` stands for `ty::Opaque(def_id, substs)`. -/
inductive MTy where
  | unitTy
  | infer (n : Nat)
  | param (n : Nat)
  | ref (r : MRegion) (t : MTy)
  | tup (ts : MTyList)
  | opaq (d : Nat) (substs : MArgList)
/-- MTyList is the component list of a tuple type. -/
inductive MTyList where
  | nil
  | cons (t : MTy) (ts : MTyList)
/-- MArg models `ty::subst::GenericArg` via its `unpack()` kinds. -/
inductive MArg where
  | ty (t : MTy)
  | lt (r : MRegion)
  | ct (k : MConst)
/-- MArgList is a `SubstsRef` (a slice of generic arguments). -/
inductive MArgList where
  | nil
  | cons (a : MArg) (rest : MArgList)
end

/-- MArgList.length is the number of generic arguments. -/
def MArgList.length : MArgList → Nat
  | .nil => 0
  | .cons _ rest => 1 + rest.length

/-- MArgList.get? is positional lookup into a substs list. -/
def MArgList.get? : MArgList → Nat → Option MArg
  | .nil, _ => none
  | .cons a _, 0 => some a
  | .cons _ rest, n + 1 => rest.get? n

/-- MRegion.needsInfer is true exactly on a region inference variable
(`ReVar`), mirroring the `HAS_RE_INFER` flag. -/
def MRegion.needsInfer : MRegion → Bool
  | .reVar _ => true
  | _ => false

/-- MConst.needsInfer is true exactly on `ConstKind::Infer`, mirroring the
`HAS_CT_INFER` flag. -/
def MConst.needsInfer : MConst → Bool
  | .kInfer _ => true
  | _ => false

mutual
/-- tyNeedsInfer models `Ty::needs_infer`: some type, region or const
inference variable occurs somewhere in the value. -/
def tyNeedsInfer : MTy → Bool
  | .unitTy => false
  | .infer _ => true
  | .param _ => false
  | .ref r t => r.needsInfer || tyNeedsInfer t
  | .tup ts => tyListNeedsInfer ts
  | .opaq _ substs => argListNeedsInfer substs
/-- tyListNeedsInfer: `needs_infer` over a component list. -/
def tyListNeedsInfer : MTyList → Bool
  | .nil => false
  | .cons t ts => tyNeedsInfer t || tyListNeedsInfer ts
/-- argNeedsInfer: `needs_infer` of one generic argument. -/
def argNeedsInfer : MArg → Bool
  | .ty t => tyNeedsInfer t
  | .lt r => r.needsInfer
  | .ct k => k.needsInfer
/-- argListNeedsInfer: `needs_infer` over a substs list. -/
def argListNeedsInfer : MArgList → Bool
  | .nil => false
  | .cons a rest => argNeedsInfer a || argListNeedsInfer rest
end

mutual
/-- foldTy models `FixupFolder::fold_ty` (mod.rs 382-441). On an opaque
type whose substs need inference, it rebuilds the substs positionally
(`InternalSubsts::for_item` indexed by `param.index`, modelled by
`foldSubsts` carrying the position); on every other type it is
`super_fold_with`, recursing into components (the folder does not override
`fold_region`/`fold_const`, whose defaults leave regions and our constants
unchanged). The `bug!` on a const inference variable is modelled as `none`.
Positions index the substs directly: by the substitution invariant the
opaque's declared parameter list has the same length and kinds as its
substs, so `mk_param_from_def(param)` at `param.index = i` is the parameter
of the kind found at position `i`. -/
def foldTy : MTy → Option MTy
  | .opaq d substs =>
    if tyNeedsInfer (.opaq d substs) then
      match foldSubsts 0 substs with
      | some substs' => some (.opaq d substs')
      | none => none
    else some (.opaq d substs)
  | .ref r t =>
    match foldTy t with
    | some t' => some (.ref r t')
    | none => none
  | .tup ts =>
    match foldTyList ts with
    | some ts' => some (.tup ts')
    | none => none
  | .unitTy => some .unitTy
  | .infer n => some (.infer n)
  | .param n => some (.param n)
/-- foldTyList folds each tuple component (`super_fold_with` on the list). -/
def foldTyList : MTyList → Option MTyList
  | .nil => some .nil
  | .cons t ts =>
    match foldTy t, foldTyList ts with
    | some t', some ts' => some (.cons t' ts')
    | _, _ => none
/-- foldSubsts models the `InternalSubsts::for_item` closure iterating the
opaque's parameters in order; `i` is `param.index`. -/
def foldSubsts : Nat → MArgList → Option MArgList
  | _, .nil => some .nil
  | i, .cons a rest =>
    match foldArgAt i a, foldSubsts (i + 1) rest with
    | some a', some rest' => some (.cons a' rest')
    | _, _ => none
/-- foldArgAt is the body of the `for_item` closure (mod.rs 396-431): a type
inference variable becomes the generic type parameter at this index, a
region inference variable the region parameter at this index, a const
inference variable is the `bug!` arm (`none`), and every other argument is
`old_param.fold_with(self)`. -/
def foldArgAt : Nat → MArg → Option MArg
  | i, .ty t =>
    match t with
    | .infer _ => some (.ty (.param i))
    | t =>
      match foldTy t with
      | some t' => some (.ty t')
      | none => none
  | i, .lt r =>
    match r with
    | .reVar _ => some (.lt (.reParam i))
    | r => some (.lt r)
  | _, .ct k =>
    match k with
    | .kInfer _ => none
    | k => some (.ct k)
end

/-- fixup_opaque_types models the function of the same name (mod.rs 369-447)
at `T = Ty`: `val.fold_with(&mut FixupFolder { tcx })`. -/
def fixup_opaque_types (val : MTy) : Option MTy :=
  foldTy val

mutual
/-- tyHasBadOpaq is true exactly when some opaque-type occurrence inside the
value carries a const inference variable (`ConstKind::Infer`) in one of its
generic-argument positions: the situation the `bug!` arm of
`fixup_opaque_types` (mod.rs 415) is reached on. -/
def tyHasBadOpaq : MTy → Bool
  | .unitTy => false
  | .infer _ => false
  | .param _ => false
  | .ref _ t => tyHasBadOpaq t
  | .tup ts => tyListHasBadOpaq ts
  | .opaq _ substs => argListHasConstInfer substs || argListHasBadOpaq substs
/-- tyListHasBadOpaq: `tyHasBadOpaq` over a component list. -/
def tyListHasBadOpaq : MTyList → Bool
  | .nil => false
  | .cons t ts => tyHasBadOpaq t || tyListHasBadOpaq ts
/-- argListHasConstInfer: some argument position is directly a const
inference variable. -/
def argListHasConstInfer : MArgList → Bool
  | .nil => false
  | .cons (.ct (.kInfer _)) _ => true
  | .cons _ rest => argListHasConstInfer rest
/-- argHasBadOpaq: the argument is a type containing a bad opaque. -/
def argHasBadOpaq : MArg → Bool
  | .ty t => tyHasBadOpaq t
  | .lt _ => false
  | .ct _ => false
/-- argListHasBadOpaq: some argument contains a bad opaque occurrence. -/
def argListHasBadOpaq : MArgList → Bool
  | .nil => false
  | .cons a rest => argHasBadOpaq a || argListHasBadOpaq rest
end

/-! ## The tail of typeck_with_fallback (mod.rs, lines 556-632)

After body checking, `typeck_with_fallback` runs a fixed straight-line
sequence: obligation selection, the NoOpaque fallback loop, re-selection,
the All fallback loop, re-selection, `check_casts`, `closure_analyze`, the
`assert!` on `deferred_call_resolutions`, `resolve_generator_interiors`,
the drain of `deferred_sized_obligations`, `select_all_obligations_or_error`,
`regionck_fn`/`regionck_expr`, and `resolve_type_vars_in_body` (writeback).
The `FnCtxt` operations live outside this file's source and are modelled as
an oracle record of arbitrary state transformers over an abstract `FnCtxt`
state; the embedding threads the state exactly in the source order and also
emits a trace of the operations it invokes. A panicking `assert!` and an
internal compiler error are modelled as the result `none`. -/

/-- WTy is an intermediate recorded type as seen by writeback: a type
variable, a concrete atom, or a pair of components. -/
inductive WTy where
  | tvar (n : Nat)
  | base (n : Nat)
  | pair (a b : WTy)
deriving DecidableEq

/-- isGround holds when a recorded type contains no type variable. -/
def isGround : WTy → Bool
  | .tvar _ => false
  | .base _ => true
  | .pair a b => isGround a && isGround b

/-- Modelled from the spec: the writeback/finalizer
(`fcx.resolve_type_vars_in_body`, whose code lives in the `writeback`
module, not under src/): "for every recorded intermediate type/substitution
in the in-progress results table, resolve fully against the Variable Store
and copy into the permanent results table. Invariant enforced by assertion,
not recoverable error: the permanent table must never contain an unresolved
variable" — the resolver is an abstract function and a surviving variable
aborts the item with an internal error (`none`). -/
def resolveTypeVarsInBody (resolve : WTy → WTy) (entries : List WTy) : Option (List WTy) :=
  let out := entries.map resolve
  if out.all isGround then some out else none

/-- FallbackMode models the enum of the same name (mod.rs 1083-1089);
`noOpaq` is `FallbackMode::NoOpaque`, `all` is `FallbackMode::All`. -/
inductive FallbackMode where
  | noOpaq
  | all
deriving DecidableEq

/-- Ev is the trace alphabet of the pipeline tail: one constructor per
operation `typeck_with_fallback` invokes after body checking. -/
inductive Ev where
  | select (fallbackHasOccurred : Bool)
  | fallback (m : FallbackMode) (v : Nat)
  | checkCasts
  | closureAnalyze
  | resolveGeneratorInteriors
  | requireSized (ty : Nat)
  | selectAllOrError
  | regionck (isFn : Bool)
  | writeback
deriving DecidableEq

/-- Fcx is the abstract `FnCtxt` state: the fields of the context that the
pipeline tail reads directly (`unsolved_variables()`,
`deferred_call_resolutions`, `deferred_sized_obligations`, the in-progress
`node_types` entries) plus a count of region errors reported to the
diagnostic sink. -/
structure Fcx where
  unsolvedVariables : List Nat
  deferredCallResolutions : List Nat
  deferredSizedObligations : List Nat
  nodeTypes : List WTy
  regionErrorCount : Nat
deriving DecidableEq

/-- Ops is the oracle of `FnCtxt` operations called by the pipeline tail;
their bodies live in other modules of the crate, so they are arbitrary
state transformers here. `fallbackIfPossible` returns the `bool` that the
source accumulates into `fallback_has_occurred`. `regionckReport` is
modelled from the spec ("Reports a hard error per violation; does not
mutate any type", regionck module not under src/): it only yields the
number of region violations reported to the diagnostic sink.
`resolve` is the Variable Store resolution used by writeback. -/
structure Ops where
  selectWherePossible : Bool → Fcx → Fcx
  fallbackIfPossible : Nat → FallbackMode → Fcx → Bool × Fcx
  checkCasts : Fcx → Fcx
  closureAnalyze : Fcx → Fcx
  resolveGeneratorInteriors : Fcx → Fcx
  normalizeTy : Nat → Nat
  requireTypeIsSized : Nat → Fcx → Fcx
  selectAllObligationsOrError : Fcx → Fcx
  regionckReport : Fcx → Nat
  resolve : WTy → WTy

/-- fallbackLoop models `for ty in &fcx.unsolved_variables() {
fallback_has_occurred |= fcx.fallback_if_possible(ty, mode); }`
(mod.rs 563-565 and 594-596), returning the accumulated flag, the final
state, and the trace of fallback attempts. -/
def fallbackLoop (ops : Ops) (m : FallbackMode) (occ : Bool) (s : Fcx) :
    List Nat → Bool × Fcx × List Ev
  | [] => (occ, s, [])
  | v :: rest =>
    let (b, s') := ops.fallbackIfPossible v m s
    let (occ', s'', tr) := fallbackLoop ops m (occ || b) s' rest
    (occ', s'', Ev.fallback m v :: tr)

/-- stateAfterFirstSelect is the state after the initial
`fcx.select_obligations_where_possible(false, ..)` (mod.rs 557). -/
def stateAfterFirstSelect (ops : Ops) (fcx0 : Fcx) : Fcx :=
  ops.selectWherePossible false fcx0

/-- noOpaqRound is the first (NoOpaque) fallback pass (mod.rs 563-565). -/
def noOpaqRound (ops : Ops) (fcx0 : Fcx) : Bool × Fcx × List Ev :=
  let s1 := stateAfterFirstSelect ops fcx0
  fallbackLoop ops FallbackMode.noOpaq false s1 s1.unsolvedVariables

/-- stateAfterSecondSelect is the state after the re-selection between the
two fallback passes (mod.rs 589). -/
def stateAfterSecondSelect (ops : Ops) (fcx0 : Fcx) : Fcx :=
  ops.selectWherePossible (noOpaqRound ops fcx0).1 (noOpaqRound ops fcx0).2.1

/-- allRound is the second (All) fallback pass (mod.rs 594-596). -/
def allRound (ops : Ops) (fcx0 : Fcx) : Bool × Fcx × List Ev :=
  let s3 := stateAfterSecondSelect ops fcx0
  fallbackLoop ops FallbackMode.all (noOpaqRound ops fcx0).1 s3 s3.unsolvedVariables

/-- fallbackPhase is mod.rs 556-599: initial selection, NoOpaque pass,
re-selection, All pass, final re-selection, with the emitted trace. -/
def fallbackPhase (ops : Ops) (fcx0 : Fcx) : Bool × Fcx × List Ev :=
  let (occ2, s4, tr2) := allRound ops fcx0
  let s5 := ops.selectWherePossible occ2 s4
  (occ2, s5,
    Ev.select false :: ((noOpaqRound ops fcx0).2.2 ++
      (Ev.select (noOpaqRound ops fcx0).1 :: (tr2 ++ [Ev.select occ2]))))

/-- afterClosureAnalyze is the state right before the
`assert!(fcx.deferred_call_resolutions.borrow().is_empty())` (mod.rs 608):
after `check_casts` (603) and `closure_analyze` (607). -/
def afterClosureAnalyze (ops : Ops) (fcx0 : Fcx) : Fcx :=
  ops.closureAnalyze (ops.checkCasts (fallbackPhase ops fcx0).2.1)

/-- sizedLoop models the drain of `deferred_sized_obligations`
(mod.rs 611-614): each entry is normalized and required to be `Sized`. -/
def sizedLoop (ops : Ops) (s : Fcx) : List Nat → Fcx × List Ev
  | [] => (s, [])
  | ob :: rest =>
    let ty := ops.normalizeTy ob
    let s' := ops.requireTypeIsSized ty s
    let (s'', tr) := sizedLoop ops s' rest
    (s'', Ev.requireSized ty :: tr)

/-- afterSized is the state after generator-interior resolution and the
sized-obligation drain (mod.rs 609-614), with the drain's trace. -/
def afterSized (ops : Ops) (fcx0 : Fcx) : Fcx × List Ev :=
  let s8 := ops.resolveGeneratorInteriors (afterClosureAnalyze ops fcx0)
  sizedLoop ops { s8 with deferredSizedObligations := [] } s8.deferredSizedObligations

/-- afterSelectAllOrError is the state after
`fcx.select_all_obligations_or_error()` (mod.rs 616). -/
def afterSelectAllOrError (ops : Ops) (fcx0 : Fcx) : Fcx :=
  ops.selectAllObligationsOrError (afterSized ops fcx0).1

/-- afterRegionck is the state after `regionck_fn`/`regionck_expr`
(mod.rs 618-622): region violations are added to the diagnostic sink. -/
def afterRegionck (ops : Ops) (fcx0 : Fcx) : Fcx :=
  let s10 := afterSelectAllOrError ops fcx0
  { s10 with regionErrorCount := s10.regionErrorCount + ops.regionckReport s10 }

/-- typeckTail is the straight-line tail of `typeck_with_fallback`
(mod.rs 556-632) beginning at the first
`select_obligations_where_possible`: it returns the trace of invoked
operations together with the published results (`none` models the
panicking `assert!` at 608 or the writeback internal error). `fd` is
`fn_decl.is_some()`, selecting `regionck_fn` versus `regionck_expr`. -/
def typeckTail (ops : Ops) (fd : Bool) (fcx0 : Fcx) : List Ev × Option (List WTy) :=
  let trF := (fallbackPhase ops fcx0).2.2
  let s7 := afterClosureAnalyze ops fcx0
  if s7.deferredCallResolutions.isEmpty then
    let s11 := afterRegionck ops fcx0
    (trF ++ ([Ev.checkCasts, Ev.closureAnalyze, Ev.resolveGeneratorInteriors] ++
       ((afterSized ops fcx0).2 ++ [Ev.selectAllOrError, Ev.regionck fd, Ev.writeback])),
     resolveTypeVarsInBody ops.resolve s11.nodeTypes)
  else
    (trF ++ [Ev.checkCasts, Ev.closureAnalyze], none)

/-- firstIdx is the index of the first occurrence of an event in a trace. -/
def firstIdx (e : Ev) : List Ev → Option Nat
  | [] => none
  | x :: rest => if x = e then some 0 else (firstIdx e rest).map (· + 1)

/-- writebackBeforeRegionckB decides whether a writeback event strictly
precedes the (first) regionck event in a trace — the temporal ordering
asserted by the spec sentence "does not block Writeback, which has already
run". -/
def writebackBeforeRegionckB (fd : Bool) (tr : List Ev) : Bool :=
  match firstIdx Ev.writeback tr, firstIdx (Ev.regionck fd) tr with
  | some i, some j => decide (i < j)
  | _, _ => false

/-- opsId is the trivial oracle: every operation leaves the state
unchanged, no fallback occurs, no region error is reported, resolution is
the identity. -/
def opsId : Ops :=
  { selectWherePossible := fun _ s => s
    fallbackIfPossible := fun _ _ s => (false, s)
    checkCasts := fun s => s
    closureAnalyze := fun s => s
    resolveGeneratorInteriors := fun s => s
    normalizeTy := fun t => t
    requireTypeIsSized := fun _ s => s
    selectAllObligationsOrError := fun s => s
    regionckReport := fun _ => 0
    resolve := fun t => t }

/-- opsC3 is opsId except that closure analysis discharges (empties) the
deferred-call-resolution list, as the closure-checking machinery may. -/
def opsC3 : Ops :=
  { opsId with closureAnalyze := fun s => { s with deferredCallResolutions := [] } }

/-- fcxC3 is a state whose deferred-call-resolution list is non-empty when
fallback begins. -/
def fcxC3 : Fcx :=
  { unsolvedVariables := []
    deferredCallResolutions := [0]
    deferredSizedObligations := []
    nodeTypes := []
    regionErrorCount := 0 }

/-- fcxEmpty is the empty abstract state. -/
def fcxEmpty : Fcx :=
  { unsolvedVariables := []
    deferredCallResolutions := []
    deferredSizedObligations := []
    nodeTypes := []
    regionErrorCount := 0 }

/-- opsC5 is opsId except that the region checker reports one violation. -/
def opsC5 : Ops :=
  { opsId with regionckReport := fun _ => 1 }

/-- fcxC5 is a state with one ground recorded type and nothing pending. -/
def fcxC5 : Fcx :=
  { fcxEmpty with nodeTypes := [WTy.base 0] }

/-! ## typeck redirection for closures (mod.rs, lines 275-332 and 476-486)

`typeck_with_fallback` begins with
`let outer_def_id = tcx.closure_base_def_id(def_id); if outer_def_id !=
def_id { return tcx.typeck(outer_def_id); }`, and `has_typeck_results` has
the same redirection; both recurse through the `tcx` query. The `TyCtxt`
pieces they consult are modelled as a record of functions, and the query
recursion is given explicit fuel (the result `none` meaning the fuel ran
out before the redirection chain bottomed). -/

/-- HirNode models the node kinds distinguished by `primary_body_of`
(mod.rs 285-316); payloads are the body ids. -/
inductive HirNode where
  | itemConst (body : Nat)
  | itemStatic (body : Nat)
  | itemFn (body : Nat)
  | itemOther
  | traitItemConst (body : Option Nat)
  | traitItemFnProvided (body : Nat)
  | traitItemFnRequired
  | traitItemOther
  | implItemConst (body : Nat)
  | implItemFn (body : Nat)
  | anonConst (body : Nat)
  | otherNode
deriving DecidableEq

/-- PrimaryBody is `primary_body_of`'s `Some` payload: the body id and
whether the optional `hir::Ty`, `FnHeader` and `FnDecl` are present. -/
structure PrimaryBody where
  body : Nat
  hasTy : Bool
  hasHeader : Bool
  hasDecl : Bool
deriving DecidableEq

/-- primary_body_of models the function of the same name (mod.rs 285-316),
taking the already-fetched node. -/
def primary_body_of (node : HirNode) : Option PrimaryBody :=
  match node with
  | .itemConst b => some ⟨b, true, false, false⟩
  | .itemStatic b => some ⟨b, true, false, false⟩
  | .itemFn b => some ⟨b, false, true, true⟩
  | .itemOther => none
  | .traitItemConst (some b) => some ⟨b, true, false, false⟩
  | .traitItemConst none => none
  | .traitItemFnProvided b => some ⟨b, false, true, true⟩
  | .traitItemFnRequired => none
  | .traitItemOther => none
  | .implItemConst b => some ⟨b, true, false, false⟩
  | .implItemFn b => some ⟨b, false, true, true⟩
  | .anonConst b => some ⟨b, false, false, false⟩
  | .otherNode => none

/-- Tcx models the `TyCtxt` facilities that the redirection logic consults:
`closure_base_def_id`, locality of a `DefId`, the def-id-to-hir-id map, the
HIR node lookup, and `computeTypeck`, which stands for the whole
non-redirecting remainder of `typeck_with_fallback` (everything from
`primary_body_of` onwards) producing the item's results of type `R`. -/
structure Tcx (R : Type) where
  closure_base_def_id : Nat → Nat
  isLocalDef : Nat → Bool
  local_def_id_to_hir_id : Nat → Nat
  node : Nat → HirNode
  computeTypeck : Nat → R

/-- typeckFuel models the `tcx.typeck` query entering
`typeck_with_fallback` (mod.rs 476-486): a closure's request is redirected
to its `closure_base_def_id`; fuel bounds the query recursion. -/
def typeckFuel {R : Type} (tcx : Tcx R) : Nat → Nat → Option R
  | 0, _ => none
  | fuel + 1, d =>
    let outer := tcx.closure_base_def_id d
    if outer ≠ d then typeckFuel tcx fuel outer
    else some (tcx.computeTypeck d)

/-- hasTypeckResultsFuel models `has_typeck_results` (mod.rs 318-332) with
the same fuel discipline. -/
def hasTypeckResultsFuel {R : Type} (tcx : Tcx R) : Nat → Nat → Option Bool
  | 0, _ => none
  | fuel + 1, d =>
    let outer := tcx.closure_base_def_id d
    if outer ≠ d then hasTypeckResultsFuel tcx fuel outer
    else if tcx.isLocalDef d then
      some (primary_body_of (tcx.node (tcx.local_def_id_to_hir_id d))).isSome
    else some false

/-- tcxW is a concrete `Tcx` in which def 1 is a closure whose base is
def 0, a local `fn` item. -/
def tcxW : Tcx Nat :=
  { closure_base_def_id := fun d => if d = 1 then 0 else d
    isLocalDef := fun _ => true
    local_def_id_to_hir_id := fun d => d
    node := fun _ => HirNode.itemFn 3
    computeTypeck := fun d => d * 10 + 7 }

/-! ## Theorems -/

mutual
/-- foldTy_id_of_not_infer: a value without inference variables is returned
unchanged by the fixup folder. -/
theorem foldTy_id_of_not_infer : ∀ t : MTy, tyNeedsInfer t = false → foldTy t = some t
  | MTy.unitTy, _ => rfl
  | MTy.infer _, h => by simp [tyNeedsInfer] at h
  | MTy.param _, _ => rfl
  | MTy.ref r t, h => by
    simp only [tyNeedsInfer, Bool.or_eq_false_iff] at h
    simp [foldTy, foldTy_id_of_not_infer t h.2]
  | MTy.tup ts, h => by
    simp only [tyNeedsInfer] at h
    simp [foldTy, foldTyList_id_of_not_infer ts h]
  | MTy.opaq d substs, h => by
    simp [foldTy, h]
/-- foldTyList_id_of_not_infer: list version of the above. -/
theorem foldTyList_id_of_not_infer :
    ∀ ts : MTyList, tyListNeedsInfer ts = false → foldTyList ts = some ts
  | MTyList.nil, _ => rfl
  | MTyList.cons t ts, h => by
    simp only [tyListNeedsInfer, Bool.or_eq_false_iff] at h
    simp [foldTyList, foldTy_id_of_not_infer t h.1, foldTyList_id_of_not_infer ts h.2]
end

/-- foldSubsts_spec: a successful substs rebuild preserves length, and the
argument at each position `j` is the output of the `for_item` closure at
index `i + j` on the old argument. -/
theorem foldSubsts_spec : ∀ (l : MArgList) (i : Nat) (l' : MArgList),
    foldSubsts i l = some l' →
    l'.length = l.length ∧
    ∀ j a, l.get? j = some a →
      ∃ a', l'.get? j = some a' ∧ foldArgAt (i + j) a = some a'
  | MArgList.nil, i, l', h => by
    simp only [foldSubsts, Option.some.injEq] at h
    subst h
    refine ⟨rfl, ?_⟩
    intro j a ha
    simp [MArgList.get?] at ha
  | MArgList.cons a rest, i, l', h => by
    simp only [foldSubsts] at h
    cases hfa : foldArgAt i a with
    | none => rw [hfa] at h; exact absurd h (by simp)
    | some a' =>
      cases hfs : foldSubsts (i + 1) rest with
      | none => rw [hfa, hfs] at h; exact absurd h (by simp)
      | some rest' =>
        rw [hfa, hfs] at h
        simp only [Option.some.injEq] at h
        subst h
        obtain ⟨hlen, hget⟩ := foldSubsts_spec rest (i + 1) rest' hfs
        refine ⟨by simp [MArgList.length, hlen], ?_⟩
        intro j b hb
        cases j with
        | zero =>
          simp only [MArgList.get?, Option.some.injEq] at hb
          subst hb
          exact ⟨a', rfl, by simpa using hfa⟩
        | succ n =>
          simp only [MArgList.get?] at hb ⊢
          obtain ⟨b', hb', hfold⟩ := hget n b hb
          exact ⟨b', hb', by rw [show i + (n + 1) = i + 1 + n by omega]; exact hfold⟩

/-- foldTy_not_infer_head: the fixup folder never turns a non-inference-
variable type into an inference variable. -/
theorem foldTy_not_infer_head : ∀ t r : MTy, foldTy t = some r →
    (∀ v, t ≠ MTy.infer v) → ∀ v, r ≠ MTy.infer v := by
  intro t r h hni v
  cases t with
  | unitTy => simp only [foldTy, Option.some.injEq] at h; subst h; simp
  | infer n => exact absurd rfl (hni n)
  | param n => simp only [foldTy, Option.some.injEq] at h; subst h; simp
  | ref rg t' =>
    simp only [foldTy] at h
    cases hf : foldTy t' with
    | none => rw [hf] at h; exact absurd h (by simp)
    | some u => rw [hf] at h; simp only [Option.some.injEq] at h; subst h; simp
  | tup ts =>
    simp only [foldTy] at h
    cases hf : foldTyList ts with
    | none => rw [hf] at h; exact absurd h (by simp)
    | some us => rw [hf] at h; simp only [Option.some.injEq] at h; subst h; simp
  | opaq d substs =>
    simp only [foldTy] at h
    by_cases hni' : tyNeedsInfer (MTy.opaq d substs) = true
    · rw [if_pos hni'] at h
      cases hf : foldSubsts 0 substs with
      | none => rw [hf] at h; exact absurd h (by simp)
      | some ss => rw [hf] at h; simp only [Option.some.injEq] at h; subst h; simp
    · rw [if_neg hni'] at h
      simp only [Option.some.injEq] at h
      subst h
      simp

mutual
/-- foldTy_idem: a second application of the fixup folder to a successful
result returns it unchanged. -/
theorem foldTy_idem : ∀ t r : MTy, foldTy t = some r → foldTy r = some r
  | MTy.unitTy, r, h => by
    simp only [foldTy, Option.some.injEq] at h; subst h; rfl
  | MTy.infer n, r, h => by
    simp only [foldTy, Option.some.injEq] at h; subst h; rfl
  | MTy.param n, r, h => by
    simp only [foldTy, Option.some.injEq] at h; subst h; rfl
  | MTy.ref rg t, r, h => by
    simp only [foldTy] at h
    cases hf : foldTy t with
    | none => rw [hf] at h; exact absurd h (by simp)
    | some u =>
      rw [hf] at h
      simp only [Option.some.injEq] at h
      subst h
      simp [foldTy, foldTy_idem t u hf]
  | MTy.tup ts, r, h => by
    simp only [foldTy] at h
    cases hf : foldTyList ts with
    | none => rw [hf] at h; exact absurd h (by simp)
    | some us =>
      rw [hf] at h
      simp only [Option.some.injEq] at h
      subst h
      simp [foldTy, foldTyList_idem ts us hf]
  | MTy.opaq d substs, r, h => by
    simp only [foldTy] at h
    by_cases hni : tyNeedsInfer (MTy.opaq d substs) = true
    · rw [if_pos hni] at h
      cases hf : foldSubsts 0 substs with
      | none => rw [hf] at h; exact absurd h (by simp)
      | some ss =>
        rw [hf] at h
        simp only [Option.some.injEq] at h
        subst h
        by_cases hni' : tyNeedsInfer (MTy.opaq d ss) = true
        · simp only [foldTy, if_pos hni', foldSubsts_idem 0 substs ss hf]
        · simp only [foldTy, if_neg hni']
    · rw [if_neg hni] at h
      simp only [Option.some.injEq] at h
      subst h
      simp only [foldTy, if_neg hni]
/-- foldTyList_idem: list version. -/
theorem foldTyList_idem : ∀ ts rs : MTyList, foldTyList ts = some rs → foldTyList rs = some rs
  | MTyList.nil, rs, h => by
    simp only [foldTyList, Option.some.injEq] at h; subst h; rfl
  | MTyList.cons t ts, rs, h => by
    simp only [foldTyList] at h
    cases hf : foldTy t with
    | none => rw [hf] at h; exact absurd h (by simp)
    | some u =>
      cases hfs : foldTyList ts with
      | none => rw [hf, hfs] at h; exact absurd h (by simp)
      | some us =>
        rw [hf, hfs] at h
        simp only [Option.some.injEq] at h
        subst h
        simp [foldTyList, foldTy_idem t u hf, foldTyList_idem ts us hfs]
/-- foldSubsts_idem: substs version, at any starting index. -/
theorem foldSubsts_idem : ∀ (i : Nat) (l l' : MArgList),
    foldSubsts i l = some l' → foldSubsts i l' = some l'
  | i, MArgList.nil, l', h => by
    simp only [foldSubsts, Option.some.injEq] at h; subst h; rfl
  | i, MArgList.cons a rest, l', h => by
    simp only [foldSubsts] at h
    cases hfa : foldArgAt i a with
    | none => rw [hfa] at h; exact absurd h (by simp)
    | some a' =>
      cases hfs : foldSubsts (i + 1) rest with
      | none => rw [hfa, hfs] at h; exact absurd h (by simp)
      | some rest' =>
        rw [hfa, hfs] at h
        simp only [Option.some.injEq] at h
        subst h
        simp [foldSubsts, foldArgAt_idem i a a' hfa, foldSubsts_idem (i + 1) rest rest' hfs]
/-- foldArgAt_idem: one argument position, reprocessed at the same index,
is stable. -/
theorem foldArgAt_idem : ∀ (i : Nat) (a a' : MArg),
    foldArgAt i a = some a' → foldArgAt i a' = some a'
  | i, MArg.ty t, a', h => by
    cases hti : t with
    | infer v =>
      subst hti
      simp only [foldArgAt, Option.some.injEq] at h
      subst h
      rfl
    | _ =>
      subst hti
      simp only [foldArgAt] at h
      cases hf : foldTy _ with
      | none => rw [hf] at h; exact absurd h (by simp)
      | some u =>
        rw [hf] at h
        simp only [Option.some.injEq] at h
        subst h
        have hnotinf : ∀ v, u ≠ MTy.infer v :=
          foldTy_not_infer_head _ u hf (by intro v hv; exact absurd hv (by simp))
        have hidem := foldTy_idem _ u hf
        cases hu : u with
        | infer v => exact absurd rfl (hu ▸ hnotinf v)
        | _ =>
          subst hu
          simp only [foldArgAt]
          rw [hidem]
  | i, MArg.lt r, a', h => by
    cases r with
    | reVar v =>
      simp only [foldArgAt, Option.some.injEq] at h
      subst h
      rfl
    | reParam v =>
      simp only [foldArgAt, Option.some.injEq] at h
      subst h
      rfl
    | reStatic =>
      simp only [foldArgAt, Option.some.injEq] at h
      subst h
      rfl
  | i, MArg.ct k, a', h => by
    cases k with
    | kInfer v =>
      simp only [foldArgAt] at h
      exact absurd h (by simp)
    | kParam v =>
      simp only [foldArgAt, Option.some.injEq] at h
      subst h
      rfl
    | kValue v =>
      simp only [foldArgAt, Option.some.injEq] at h
      subst h
      rfl
end

theorem argListNeedsInfer_of_constInfer : ∀ l : MArgList,
    argListHasConstInfer l = true → argListNeedsInfer l = true
  | MArgList.nil, h => by simp [argListHasConstInfer] at h
  | MArgList.cons a rest, h => by
    cases a with
    | ct k =>
      cases k with
      | kInfer v => simp [argListNeedsInfer, argNeedsInfer, MConst.needsInfer]
      | kParam v =>
        simp only [argListHasConstInfer] at h
        simp [argListNeedsInfer, argListNeedsInfer_of_constInfer rest h]
      | kValue v =>
        simp only [argListHasConstInfer] at h
        simp [argListNeedsInfer, argListNeedsInfer_of_constInfer rest h]
    | ty t =>
      simp only [argListHasConstInfer] at h
      simp [argListNeedsInfer, argListNeedsInfer_of_constInfer rest h]
    | lt r =>
      simp only [argListHasConstInfer] at h
      simp [argListNeedsInfer, argListNeedsInfer_of_constInfer rest h]

mutual
theorem tyNeedsInfer_of_bad : ∀ t : MTy, tyHasBadOpaq t = true → tyNeedsInfer t = true
  | MTy.unitTy, h => by simp [tyHasBadOpaq] at h
  | MTy.infer _, h => by simp [tyHasBadOpaq] at h
  | MTy.param _, h => by simp [tyHasBadOpaq] at h
  | MTy.ref r t, h => by
    simp only [tyHasBadOpaq] at h
    simp [tyNeedsInfer, tyNeedsInfer_of_bad t h]
  | MTy.tup ts, h => by
    simp only [tyHasBadOpaq] at h
    simp [tyNeedsInfer, tyListNeedsInfer_of_bad ts h]
  | MTy.opaq d substs, h => by
    simp only [tyHasBadOpaq, Bool.or_eq_true] at h
    rcases h with h | h
    · simp [tyNeedsInfer, argListNeedsInfer_of_constInfer substs h]
    · simp [tyNeedsInfer, argListNeedsInfer_of_badList substs h]
theorem tyListNeedsInfer_of_bad : ∀ ts : MTyList,
    tyListHasBadOpaq ts = true → tyListNeedsInfer ts = true
  | MTyList.nil, h => by simp [tyListHasBadOpaq] at h
  | MTyList.cons t ts, h => by
    simp only [tyListHasBadOpaq, Bool.or_eq_true] at h
    rcases h with h | h
    · simp [tyListNeedsInfer, tyNeedsInfer_of_bad t h]
    · simp [tyListNeedsInfer, tyListNeedsInfer_of_bad ts h]
theorem argListNeedsInfer_of_badList : ∀ l : MArgList,
    argListHasBadOpaq l = true → argListNeedsInfer l = true
  | MArgList.nil, h => by simp [argListHasBadOpaq] at h
  | MArgList.cons a rest, h => by
    simp only [argListHasBadOpaq, Bool.or_eq_true] at h
    rcases h with h | h
    · cases a with
      | ty t =>
        simp only [argHasBadOpaq] at h
        simp [argListNeedsInfer, argNeedsInfer, tyNeedsInfer_of_bad t h]
      | lt r => simp [argHasBadOpaq] at h
      | ct k => simp [argHasBadOpaq] at h
    · simp [argListNeedsInfer, argListNeedsInfer_of_badList rest h]
end

theorem foldSubsts_none_of_constInfer : ∀ (i : Nat) (l : MArgList),
    argListHasConstInfer l = true → foldSubsts i l = none
  | i, MArgList.nil, h => by simp [argListHasConstInfer] at h
  | i, MArgList.cons a rest, h => by
    cases a with
    | ct k =>
      cases k with
      | kInfer v => simp [foldSubsts, foldArgAt]
      | kParam v =>
        simp only [argListHasConstInfer] at h
        simp [foldSubsts, foldSubsts_none_of_constInfer (i + 1) rest h, foldArgAt]
      | kValue v =>
        simp only [argListHasConstInfer] at h
        simp [foldSubsts, foldSubsts_none_of_constInfer (i + 1) rest h, foldArgAt]
    | ty t =>
      simp only [argListHasConstInfer] at h
      have hr := foldSubsts_none_of_constInfer (i + 1) rest h
      simp only [foldSubsts, hr]
      cases foldArgAt i (MArg.ty t) <;> simp
    | lt r =>
      simp only [argListHasConstInfer] at h
      have hr := foldSubsts_none_of_constInfer (i + 1) rest h
      simp only [foldSubsts, hr]
      cases foldArgAt i (MArg.lt r) <;> simp

mutual
theorem foldTy_none_of_bad : ∀ t : MTy, tyHasBadOpaq t = true → foldTy t = none
  | MTy.unitTy, h => by simp [tyHasBadOpaq] at h
  | MTy.infer _, h => by simp [tyHasBadOpaq] at h
  | MTy.param _, h => by simp [tyHasBadOpaq] at h
  | MTy.ref r t, h => by
    simp only [tyHasBadOpaq] at h
    simp [foldTy, foldTy_none_of_bad t h]
  | MTy.tup ts, h => by
    simp only [tyHasBadOpaq] at h
    simp [foldTy, foldTyList_none_of_bad ts h]
  | MTy.opaq d substs, h => by
    have hni : tyNeedsInfer (MTy.opaq d substs) = true := tyNeedsInfer_of_bad _ h
    simp only [tyHasBadOpaq, Bool.or_eq_true] at h
    rcases h with h | h
    · simp [foldTy, hni, foldSubsts_none_of_constInfer 0 substs h]
    · simp [foldTy, hni, foldSubsts_none_of_badList 0 substs h]
theorem foldTyList_none_of_bad : ∀ ts : MTyList,
    tyListHasBadOpaq ts = true → foldTyList ts = none
  | MTyList.nil, h => by simp [tyListHasBadOpaq] at h
  | MTyList.cons t ts, h => by
    simp only [tyListHasBadOpaq, Bool.or_eq_true] at h
    rcases h with h | h
    · simp only [foldTyList, foldTy_none_of_bad t h]
    · simp only [foldTyList, foldTyList_none_of_bad ts h]
      cases foldTy t <;> simp
theorem foldSubsts_none_of_badList : ∀ (i : Nat) (l : MArgList),
    argListHasBadOpaq l = true → foldSubsts i l = none
  | i, MArgList.nil, h => by simp [argListHasBadOpaq] at h
  | i, MArgList.cons a rest, h => by
    simp only [argListHasBadOpaq, Bool.or_eq_true] at h
    rcases h with h | h
    · cases a with
      | ty t =>
        simp only [argHasBadOpaq] at h
        have hft := foldTy_none_of_bad t h
        have hfa : foldArgAt i (MArg.ty t) = none := by
          cases t with
          | infer v => simp [tyHasBadOpaq] at h
          | unitTy => simp [tyHasBadOpaq] at h
          | param v => simp [tyHasBadOpaq] at h
          | ref rg u => simp only [foldArgAt, hft]
          | tup ts => simp only [foldArgAt, hft]
          | opaq dd ss => simp only [foldArgAt, hft]
        simp only [foldSubsts, hfa]
      | lt r => simp [argHasBadOpaq] at h
      | ct k => simp [argHasBadOpaq] at h
    · have hr := foldSubsts_none_of_badList (i + 1) rest h
      simp only [foldSubsts, hr]
      cases foldArgAt i a <;> simp
end

theorem argListHasConstInfer_of_get : ∀ (l : MArgList) (j v : Nat),
    l.get? j = some (MArg.ct (MConst.kInfer v)) → argListHasConstInfer l = true
  | MArgList.nil, j, v, h => by simp [MArgList.get?] at h
  | MArgList.cons a rest, 0, v, h => by
    simp only [MArgList.get?, Option.some.injEq] at h
    subst h
    simp [argListHasConstInfer]
  | MArgList.cons a rest, j + 1, v, h => by
    simp only [MArgList.get?] at h
    have hr := argListHasConstInfer_of_get rest j v h
    cases a with
    | ct k =>
      cases k with
      | kInfer w => simp [argListHasConstInfer]
      | kParam w => simp [argListHasConstInfer, hr]
      | kValue w => simp [argListHasConstInfer, hr]
    | ty t => simp [argListHasConstInfer, hr]
    | lt r => simp [argListHasConstInfer, hr]

/-- Claim C4: for every type given to the opaque-type fixup, every
opaque-type occurrence containing an inference variable has each
generic-argument position holding an unresolved type inference variable or
region inference variable replaced by the declared generic parameter at
that position, non-variable positions are recursively fixed up, and values
with no inference variables are returned unchanged. -/
theorem c4_fixup_replaces_variable_positions :
    (∀ t : MTy, tyNeedsInfer t = false → fixup_opaque_types t = some t) ∧
    (∀ (d : Nat) (substs : MArgList) (r : MTy),
      tyNeedsInfer (MTy.opaq d substs) = true →
      fixup_opaque_types (MTy.opaq d substs) = some r →
      ∃ substs', r = MTy.opaq d substs' ∧
        substs'.length = substs.length ∧
        ∀ j a, substs.get? j = some a →
          ∃ a', substs'.get? j = some a' ∧ foldArgAt j a = some a') ∧
    (∀ j v : Nat, foldArgAt j (MArg.ty (MTy.infer v)) = some (MArg.ty (MTy.param j))) ∧
    (∀ j v : Nat, foldArgAt j (MArg.lt (MRegion.reVar v)) = some (MArg.lt (MRegion.reParam j))) ∧
    (∀ (j : Nat) (u : MTy), (∀ v, u ≠ MTy.infer v) →
      foldArgAt j (MArg.ty u) = Option.map MArg.ty (foldTy u)) ∧
    (∀ (j : Nat) (r : MRegion), (∀ v, r ≠ MRegion.reVar v) →
      foldArgAt j (MArg.lt r) = some (MArg.lt r)) := by
  refine ⟨foldTy_id_of_not_infer, ?_, fun j v => rfl, fun j v => rfl, ?_, ?_⟩
  · intro d substs r hni h
    simp only [fixup_opaque_types, foldTy, hni, if_true] at h
    cases hf : foldSubsts 0 substs with
    | none => rw [hf] at h; exact absurd h (by simp)
    | some ss =>
      rw [hf] at h
      simp only [Option.some.injEq] at h
      subst h
      obtain ⟨hlen, hget⟩ := foldSubsts_spec substs 0 ss hf
      refine ⟨ss, rfl, hlen, ?_⟩
      intro j a ha
      obtain ⟨a', ha', hfold⟩ := hget j a ha
      exact ⟨a', ha', by simpa using hfold⟩
  · intro j u hu
    cases u with
    | infer v => exact absurd rfl (hu v)
    | unitTy => simp [foldArgAt, foldTy]
    | param v => simp [foldArgAt, foldTy]
    | ref rg t => simp only [foldArgAt]; cases foldTy (MTy.ref rg t) <;> simp
    | tup ts => simp only [foldArgAt]; cases foldTy (MTy.tup ts) <;> simp
    | opaq d ss => simp only [foldArgAt]; cases foldTy (MTy.opaq d ss) <;> simp
  · intro j r hr
    cases r with
    | reVar v => exact absurd rfl (hr v)
    | reParam v => rfl
    | reStatic => rfl

/-- Witness for C4: the theorem applied to the opaque type `Opaque(0)[infer
5, 'reVar 2, const 7]`, whose fixup rebuilds the substs as `[param 0,
'reParam 1, const 7]`. -/
theorem c4_fixup_witness :
    tyNeedsInfer (MTy.opaq 0 (MArgList.cons (MArg.ty (MTy.infer 5))
      (MArgList.cons (MArg.lt (MRegion.reVar 2))
        (MArgList.cons (MArg.ct (MConst.kValue 7)) MArgList.nil)))) = true ∧
    fixup_opaque_types (MTy.opaq 0 (MArgList.cons (MArg.ty (MTy.infer 5))
      (MArgList.cons (MArg.lt (MRegion.reVar 2))
        (MArgList.cons (MArg.ct (MConst.kValue 7)) MArgList.nil)))) =
      some (MTy.opaq 0 (MArgList.cons (MArg.ty (MTy.param 0))
        (MArgList.cons (MArg.lt (MRegion.reParam 1))
          (MArgList.cons (MArg.ct (MConst.kValue 7)) MArgList.nil)))) ∧
    (∃ substs',
      MTy.opaq 0 (MArgList.cons (MArg.ty (MTy.param 0))
        (MArgList.cons (MArg.lt (MRegion.reParam 1))
          (MArgList.cons (MArg.ct (MConst.kValue 7)) MArgList.nil))) =
        MTy.opaq 0 substs' ∧
      substs'.length =
        (MArgList.cons (MArg.ty (MTy.infer 5))
          (MArgList.cons (MArg.lt (MRegion.reVar 2))
            (MArgList.cons (MArg.ct (MConst.kValue 7)) MArgList.nil))).length ∧
      ∀ j a,
        (MArgList.cons (MArg.ty (MTy.infer 5))
          (MArgList.cons (MArg.lt (MRegion.reVar 2))
            (MArgList.cons (MArg.ct (MConst.kValue 7)) MArgList.nil))).get? j = some a →
        ∃ a', substs'.get? j = some a' ∧ foldArgAt j a = some a') :=
  ⟨rfl, rfl, c4_fixup_replaces_variable_positions.2.1 0 _ _ rfl rfl⟩

/-- Claim C6: a constant-value generic-argument position of an opaque-type
occurrence holding an unresolved constant inference variable makes
`fixup_opaque_types` fail fatally (the `bug!` arm, modelled as `none`): at
a directly given position, and anywhere inside the folded value. -/
theorem c6_const_infer_is_fatal :
    (∀ (d : Nat) (substs : MArgList) (j v : Nat),
      substs.get? j = some (MArg.ct (MConst.kInfer v)) →
      fixup_opaque_types (MTy.opaq d substs) = none) ∧
    (∀ t : MTy, tyHasBadOpaq t = true → fixup_opaque_types t = none) := by
  constructor
  · intro d substs j v h
    have hc := argListHasConstInfer_of_get substs j v h
    exact foldTy_none_of_bad (MTy.opaq d substs) (by simp [tyHasBadOpaq, hc])
  · exact foldTy_none_of_bad

/-- Witness for C6: the theorem applied to `Opaque(0)[const-infer 0]`. -/
theorem c6_const_infer_witness :
    (MArgList.cons (MArg.ct (MConst.kInfer 0)) MArgList.nil).get? 0 =
      some (MArg.ct (MConst.kInfer 0)) ∧
    fixup_opaque_types
      (MTy.opaq 0 (MArgList.cons (MArg.ct (MConst.kInfer 0)) MArgList.nil)) = none :=
  ⟨rfl, c6_const_infer_is_fatal.1 0 _ 0 0 rfl⟩

/-- Claim C7: the opaque-type fixup is idempotent: running the folder on
the result of a successful run returns that result unchanged (in `Option`,
the Kleisli composition of the fixup with itself equals the fixup). -/
theorem c7_fixup_idempotent : ∀ t : MTy,
    (fixup_opaque_types t).bind fixup_opaque_types = fixup_opaque_types t := by
  intro t
  cases h : fixup_opaque_types t with
  | none => rfl
  | some r =>
    simpa [Option.bind] using foldTy_idem t r h


theorem fallbackLoop_trace (ops : Ops) (m : FallbackMode) :
    ∀ (vs : List Nat) (occ : Bool) (s : Fcx),
      (fallbackLoop ops m occ s vs).2.2 = vs.map (Ev.fallback m)
  | [], occ, s => rfl
  | v :: rest, occ, s => by
    rcases hfb : ops.fallbackIfPossible v m s with ⟨b, s'⟩
    rcases hrec : fallbackLoop ops m (occ || b) s' rest with ⟨occ', s'', tr⟩
    have ih := fallbackLoop_trace ops m rest (occ || b) s'
    rw [hrec] at ih
    simp only at ih
    simp [fallbackLoop, hfb, hrec, ih]

theorem sizedLoop_trace (ops : Ops) :
    ∀ (obs : List Nat) (s : Fcx),
      (sizedLoop ops s obs).2 = obs.map fun ob => Ev.requireSized (ops.normalizeTy ob)
  | [], s => rfl
  | ob :: rest, s => by
    rcases hrec : sizedLoop ops (ops.requireTypeIsSized (ops.normalizeTy ob) s) rest
      with ⟨s'', tr⟩
    have ih := sizedLoop_trace ops rest (ops.requireTypeIsSized (ops.normalizeTy ob) s)
    rw [hrec] at ih
    simp [sizedLoop, hrec, ih]

theorem fallbackPhase_trace : ∀ (ops : Ops) (fcx0 : Fcx),
    (fallbackPhase ops fcx0).2.2 =
      Ev.select false ::
        (((stateAfterFirstSelect ops fcx0).unsolvedVariables).map
            (Ev.fallback FallbackMode.noOpaq) ++
          (Ev.select (noOpaqRound ops fcx0).1 ::
            (((stateAfterSecondSelect ops fcx0).unsolvedVariables).map
                (Ev.fallback FallbackMode.all) ++
              [Ev.select (allRound ops fcx0).1]))) := by
  intro ops fcx0
  have hn : (noOpaqRound ops fcx0).2.2 =
      ((stateAfterFirstSelect ops fcx0).unsolvedVariables).map
        (Ev.fallback FallbackMode.noOpaq) := by
    simp [noOpaqRound, fallbackLoop_trace]
  have ha : (allRound ops fcx0).2.2 =
      ((stateAfterSecondSelect ops fcx0).unsolvedVariables).map
        (Ev.fallback FallbackMode.all) := by
    simp [allRound, fallbackLoop_trace]
  rcases h : allRound ops fcx0 with ⟨occ2, s4, tr2⟩
  rw [h] at ha
  simp only at ha
  simp [fallbackPhase, h, hn, ha]

theorem typeckTail_trace : ∀ (ops : Ops) (fd : Bool) (fcx0 : Fcx),
    (typeckTail ops fd fcx0).1 =
      (fallbackPhase ops fcx0).2.2 ++
        (if (afterClosureAnalyze ops fcx0).deferredCallResolutions.isEmpty then
          [Ev.checkCasts, Ev.closureAnalyze, Ev.resolveGeneratorInteriors] ++
            ((afterSized ops fcx0).2 ++
              [Ev.selectAllOrError, Ev.regionck fd, Ev.writeback])
        else [Ev.checkCasts, Ev.closureAnalyze]) := by
  intro ops fd fcx0
  cases h : (afterClosureAnalyze ops fcx0).deferredCallResolutions.isEmpty <;>
    simp [typeckTail, h]

theorem mem_fallbackPhase_trace : ∀ (ops : Ops) (fcx0 : Fcx) (e : Ev),
    e ∈ (fallbackPhase ops fcx0).2.2 →
    (∃ b, e = Ev.select b) ∨ (∃ m v, e = Ev.fallback m v) := by
  intro ops fcx0 e he
  rw [fallbackPhase_trace] at he
  rcases List.mem_cons.mp he with rfl | he1
  · exact Or.inl ⟨false, rfl⟩
  rcases List.mem_append.mp he1 with he2 | he3
  · rcases List.mem_map.mp he2 with ⟨v, _, rfl⟩
    exact Or.inr ⟨FallbackMode.noOpaq, v, rfl⟩
  rcases List.mem_cons.mp he3 with rfl | he4
  · exact Or.inl ⟨(noOpaqRound ops fcx0).1, rfl⟩
  rcases List.mem_append.mp he4 with he5 | he6
  · rcases List.mem_map.mp he5 with ⟨v, _, rfl⟩
    exact Or.inr ⟨FallbackMode.all, v, rfl⟩
  · rcases List.mem_singleton.mp he6 with rfl
    exact Or.inl ⟨(allRound ops fcx0).1, rfl⟩

theorem mem_afterSized_trace : ∀ (ops : Ops) (fcx0 : Fcx) (e : Ev),
    e ∈ (afterSized ops fcx0).2 → ∃ t, e = Ev.requireSized t := by
  intro ops fcx0 e he
  simp only [afterSized] at he
  rw [sizedLoop_trace] at he
  simp only [List.mem_map] at he
  rcases he with ⟨ob, _, rfl⟩
  exact ⟨_, rfl⟩

/-- Claim C1: after the initial obligation selection, the pipeline performs
exactly two fallback rounds interleaved with obligation re-selection, in
this fixed order: a NoOpaque pass over every unsolved variable, a
re-selection, an All pass over every still-unsolved variable, a final
re-selection — and, whatever the behaviour of the oracle operations, no
further fallback or selection event ever follows (no fixpoint loop). -/
theorem c1_two_fallback_rounds : ∀ (ops : Ops) (fd : Bool) (fcx0 : Fcx),
    ∃ (occ1 occ2 : Bool) (rest : List Ev),
      (typeckTail ops fd fcx0).1 =
        Ev.select false ::
          (((stateAfterFirstSelect ops fcx0).unsolvedVariables).map
              (Ev.fallback FallbackMode.noOpaq) ++
            (Ev.select occ1 ::
              (((stateAfterSecondSelect ops fcx0).unsolvedVariables).map
                  (Ev.fallback FallbackMode.all) ++
                (Ev.select occ2 :: rest)))) ∧
      (∀ e ∈ rest, (∀ m v, e ≠ Ev.fallback m v) ∧ (∀ b, e ≠ Ev.select b)) := by
  intro ops fd fcx0
  refine ⟨(noOpaqRound ops fcx0).1, (allRound ops fcx0).1,
    (if (afterClosureAnalyze ops fcx0).deferredCallResolutions.isEmpty then
      [Ev.checkCasts, Ev.closureAnalyze, Ev.resolveGeneratorInteriors] ++
        ((afterSized ops fcx0).2 ++
          [Ev.selectAllOrError, Ev.regionck fd, Ev.writeback])
    else [Ev.checkCasts, Ev.closureAnalyze]), ?_, ?_⟩
  · rw [typeckTail_trace, fallbackPhase_trace]
    simp
  · intro e he
    have hshape : (∃ t, e = Ev.requireSized t) ∨
        e ∈ [Ev.checkCasts, Ev.closureAnalyze, Ev.resolveGeneratorInteriors,
             Ev.selectAllOrError, Ev.regionck fd, Ev.writeback] := by
      by_cases hb : (afterClosureAnalyze ops fcx0).deferredCallResolutions.isEmpty = true
      · rw [if_pos hb] at he
        simp only [List.mem_append, List.mem_cons, List.mem_singleton] at he
        rcases he with (rfl | rfl | rfl | h) | h
        · right; simp
        · right; simp
        · right; simp
        · simp at h
        rcases h with h | (rfl | rfl | rfl | h)
        · exact Or.inl (mem_afterSized_trace ops fcx0 e h)
        · right; simp
        · right; simp
        · right; simp
        · simp at h
      · rw [if_neg hb] at he
        simp only [List.mem_cons, List.mem_singleton] at he
        rcases he with rfl | rfl | h
        · right; simp
        · right; simp
        · simp at h
    rcases hshape with ⟨t, rfl⟩ | hmem
    · exact ⟨fun m v => by simp, fun b => by simp⟩
    · simp only [List.mem_cons, List.mem_singleton, List.not_mem_nil, or_false] at hmem
      rcases hmem with rfl | rfl | rfl | rfl | rfl | rfl
      all_goals exact ⟨fun m v => by simp, fun b => by simp⟩

/-- Witness for C1: the theorem instantiated at the trivial oracle and the
empty state. -/
theorem c1_two_fallback_rounds_witness :
    ∃ (occ1 occ2 : Bool) (rest : List Ev),
      (typeckTail opsId true fcxEmpty).1 =
        Ev.select false ::
          (((stateAfterFirstSelect opsId fcxEmpty).unsolvedVariables).map
              (Ev.fallback FallbackMode.noOpaq) ++
            (Ev.select occ1 ::
              (((stateAfterSecondSelect opsId fcxEmpty).unsolvedVariables).map
                  (Ev.fallback FallbackMode.all) ++
                (Ev.select occ2 :: rest)))) ∧
      (∀ e ∈ rest, (∀ m v, e ≠ Ev.fallback m v) ∧ (∀ b, e ≠ Ev.select b)) :=
  c1_two_fallback_rounds opsId true fcxEmpty

/-- Claim C2: a successfully published results table contains no unresolved
type variable: whatever the oracle operations and the initial state, if the
pipeline tail publishes results, every entry is ground. -/
theorem c2_no_variable_leakage : ∀ (ops : Ops) (fd : Bool) (fcx0 : Fcx) (res : List WTy),
    (typeckTail ops fd fcx0).2 = some res → ∀ t ∈ res, isGround t = true := by
  intro ops fd fcx0 res h t ht
  cases hb : (afterClosureAnalyze ops fcx0).deferredCallResolutions.isEmpty with
  | false => simp [typeckTail, hb] at h
  | true =>
    simp only [typeckTail, hb, if_true] at h
    simp only [resolveTypeVarsInBody] at h
    cases hall : ((afterRegionck ops fcx0).nodeTypes.map ops.resolve).all isGround with
    | false => rw [hall] at h; simp at h
    | true =>
      rw [hall] at h
      simp only [if_true, Option.some.injEq] at h
      subst h
      exact List.all_eq_true.mp hall t ht

/-- Witness for C2: the theorem applied to the trivial oracle and a state
with one ground recorded type, which the pipeline publishes. -/
theorem c2_no_variable_leakage_witness :
    (typeckTail opsId true fcxC5).2 = some [WTy.base 0] ∧
    isGround (WTy.base 0) = true :=
  ⟨by decide,
   c2_no_variable_leakage opsId true fcxC5 [WTy.base 0] (by decide) (WTy.base 0) (by simp)⟩

/-- Counterexample to C3 as stated: with an oracle whose closure analysis
discharges the deferred call resolutions, a state whose
deferred-call-resolution list is non-empty at the moment fallback begins
(right after the initial obligation selection) is NOT aborted: the pipeline
still publishes results, because the emptiness `assert!` only runs after
closure analysis (mod.rs 608), not when fallback begins. -/
theorem c3_counterexample :
    (stateAfterFirstSelect opsC3 fcxC3).deferredCallResolutions ≠ [] ∧
    (typeckTail opsC3 true fcxC3).2 ≠ none := by
  exact ⟨by decide, by decide⟩

/-- Claim C3 (amended): the deferred-call-resolution list must be empty
after closure analysis (which runs after the two fallback passes); a
non-empty list at that assertion point aborts the item with an internal
error (`none`) rather than a user-facing diagnostic. -/
theorem c3_amended_assert_after_closure_analyze :
    ∀ (ops : Ops) (fd : Bool) (fcx0 : Fcx),
      (afterClosureAnalyze ops fcx0).deferredCallResolutions ≠ [] →
      (typeckTail ops fd fcx0).2 = none := by
  intro ops fd fcx0 hne
  have hb : (afterClosureAnalyze ops fcx0).deferredCallResolutions.isEmpty = false := by
    cases hl : (afterClosureAnalyze ops fcx0).deferredCallResolutions with
    | nil => exact absurd hl hne
    | cons a l => simp
  simp [typeckTail, hb]

/-- Witness for the amended C3: with the trivial oracle the list stays
non-empty through closure analysis and the pipeline aborts. -/
theorem c3_amended_witness :
    (afterClosureAnalyze opsId fcxC3).deferredCallResolutions ≠ [] ∧
    (typeckTail opsId true fcxC3).2 = none :=
  ⟨by decide, c3_amended_assert_after_closure_analyze opsId true fcxC3 (by decide)⟩

/-- Counterexample to C5 as stated: a run in which the region checker
reports a violation (the error count after regionck is positive) and the
trace contains a regionck event, yet no writeback event precedes it — the
code runs `regionck_fn`/`regionck_expr` (mod.rs 618-622) strictly before
`resolve_type_vars_in_body` (mod.rs 624), so writeback has NOT already run
when region violations are reported. -/
theorem c5_counterexample :
    0 < (afterRegionck opsC5 fcxC5).regionErrorCount ∧
    firstIdx (Ev.regionck true) (typeckTail opsC5 true fcxC5).1 ≠ none ∧
    writebackBeforeRegionckB true (typeckTail opsC5 true fcxC5).1 = false := by
  exact ⟨by decide, by decide, by decide⟩

/-- Claim C5 (amended): region checking runs after all obligation
processing and immediately before writeback: whenever the deferred-call
assertion passes, the trace ends with selection-of-all-obligations,
regionck, then writeback (no earlier regionck or writeback event); the
published results are exactly the writeback of the state regionck received,
and regionck itself only adds its reported violations to the diagnostic
sink — violations never block the subsequent writeback. -/
theorem c5_amended_regionck_before_writeback :
    ∀ (ops : Ops) (fd : Bool) (fcx0 : Fcx),
      (afterClosureAnalyze ops fcx0).deferredCallResolutions.isEmpty = true →
      (∃ pre, (typeckTail ops fd fcx0).1 =
          pre ++ [Ev.selectAllOrError, Ev.regionck fd, Ev.writeback] ∧
          Ev.writeback ∉ pre ∧ Ev.regionck fd ∉ pre) ∧
      ((typeckTail ops fd fcx0).2 =
          resolveTypeVarsInBody ops.resolve (afterSelectAllOrError ops fcx0).nodeTypes ∧
        (afterRegionck ops fcx0).nodeTypes = (afterSelectAllOrError ops fcx0).nodeTypes ∧
        (afterRegionck ops fcx0).regionErrorCount =
          (afterSelectAllOrError ops fcx0).regionErrorCount +
            ops.regionckReport (afterSelectAllOrError ops fcx0)) := by
  intro ops fd fcx0 hb
  constructor
  · refine ⟨(fallbackPhase ops fcx0).2.2 ++
      ([Ev.checkCasts, Ev.closureAnalyze, Ev.resolveGeneratorInteriors] ++
        (afterSized ops fcx0).2), ?_, ?_, ?_⟩
    · rw [typeckTail_trace, if_pos hb]
      simp
    · intro hmem
      simp only [List.mem_append, List.mem_cons, List.not_mem_nil, or_false] at hmem
      rcases hmem with h | (h | h | h) | h
      · rcases mem_fallbackPhase_trace ops fcx0 _ h with ⟨b, hb'⟩ | ⟨m, v, hb'⟩ <;> simp at hb'
      · simp at h
      · simp at h
      · simp at h
      · rcases mem_afterSized_trace ops fcx0 _ h with ⟨t, ht⟩; simp at ht
    · intro hmem
      simp only [List.mem_append, List.mem_cons, List.not_mem_nil, or_false] at hmem
      rcases hmem with h | (h | h | h) | h
      · rcases mem_fallbackPhase_trace ops fcx0 _ h with ⟨b, hb'⟩ | ⟨m, v, hb'⟩ <;> simp at hb'
      · simp at h
      · simp at h
      · simp at h
      · rcases mem_afterSized_trace ops fcx0 _ h with ⟨t, ht⟩; simp at ht
  · refine ⟨?_, rfl, rfl⟩
    simp only [typeckTail, hb, if_true]
    rfl

/-- Witness for the amended C5: the theorem applied to the one-violation
oracle: the trace ordering holds, one region violation is reported, and the
results are nevertheless published. -/
theorem c5_amended_witness :
    (∃ pre, (typeckTail opsC5 true fcxC5).1 =
        pre ++ [Ev.selectAllOrError, Ev.regionck true, Ev.writeback] ∧
        Ev.writeback ∉ pre ∧ Ev.regionck true ∉ pre) ∧
    (typeckTail opsC5 true fcxC5).2 = some [WTy.base 0] ∧
    (afterRegionck opsC5 fcxC5).regionErrorCount = 1 := by
  have h := c5_amended_regionck_before_writeback opsC5 true fcxC5 (by decide)
  exact ⟨h.1, h.2.1.trans (by decide), by decide⟩

/-- Witness for C7: the theorem applied at a concrete opaque type with an
inference-variable argument. -/
theorem c7_fixup_idempotent_witness :
    (fixup_opaque_types
        (MTy.opaq 0 (MArgList.cons (MArg.ty (MTy.infer 3)) MArgList.nil))).bind
        fixup_opaque_types =
      fixup_opaque_types
        (MTy.opaq 0 (MArgList.cons (MArg.ty (MTy.infer 3)) MArgList.nil)) :=
  c7_fixup_idempotent (MTy.opaq 0 (MArgList.cons (MArg.ty (MTy.infer 3)) MArgList.nil))

/-- Claim C8: a definition whose enclosing closure-base definition differs
from itself (a closure) gets exactly the results of its outermost enclosing
item: the typeck query redirects to the closure base (which, being a
fixpoint of `closure_base_def_id`, computes its own results), and such a
definition has typeck results exactly when the outer item does — closures
never get an independently published results table. -/
theorem c8_closure_redirect :
    ∀ (R : Type) (tcx : Tcx R) (d fuel : Nat),
      tcx.closure_base_def_id d ≠ d →
      tcx.closure_base_def_id (tcx.closure_base_def_id d) = tcx.closure_base_def_id d →
      typeckFuel tcx (fuel + 2) d = typeckFuel tcx (fuel + 1) (tcx.closure_base_def_id d) ∧
      typeckFuel tcx (fuel + 2) d = some (tcx.computeTypeck (tcx.closure_base_def_id d)) ∧
      hasTypeckResultsFuel tcx (fuel + 2) d =
        hasTypeckResultsFuel tcx (fuel + 1) (tcx.closure_base_def_id d) := by
  intro R tcx d fuel hne hidem
  refine ⟨?_, ?_, ?_⟩
  · simp [typeckFuel, hne]
  · simp [typeckFuel, hne, hidem]
  · simp [hasTypeckResultsFuel, hne]

/-- Witness for C8: in `tcxW`, def 1 is a closure with base def 0; its
typeck request returns def 0's computed results and its has-results query
equals def 0's. -/
theorem c8_closure_redirect_witness :
    typeckFuel tcxW 2 1 = typeckFuel tcxW 1 0 ∧
    typeckFuel tcxW 2 1 = some (tcxW.computeTypeck 0) ∧
    hasTypeckResultsFuel tcxW 2 1 = hasTypeckResultsFuel tcxW 1 0 := by
  have h := c8_closure_redirect Nat tcxW 1 0 (by decide) (by decide)
  exact ⟨h.1, h.2.1, h.2.2⟩

/-- Claim C9: `UnsafetyState::recurse` leaves the receiver unchanged (the new
state is derived functionally and returned, never written back into the
receiver); when `unsafety` is `Unsafe` and the state originates from an
unsafe function (`from_fn`), the returned state equals the input; otherwise a
push-unsafe block increments the nesting counter by exactly one and a
pop-unsafe block decrements it by exactly one. -/
theorem c9_recurse_functional :
    (∀ (s : RustcTypeck.UnsafetyState) (blk : RustcTypeck.HirBlock),
      (s.recurseMut blk).1 = s) ∧
    (∀ (s : RustcTypeck.UnsafetyState) (blk : RustcTypeck.HirBlock),
      s.unsafety = RustcTypeck.Unsafety.unsafeTag → s.from_fn = true →
      s.recurse blk = some s) ∧
    (∀ (s s' : RustcTypeck.UnsafetyState) (blk : RustcTypeck.HirBlock),
      ¬(s.unsafety = RustcTypeck.Unsafety.unsafeTag ∧ s.from_fn = true) →
      blk.rules = RustcTypeck.BlockCheckMode.pushUnsafeBlock →
      s.recurse blk = some s' →
      s'.unsafe_push_count = s.unsafe_push_count + 1) ∧
    (∀ (s s' : RustcTypeck.UnsafetyState) (blk : RustcTypeck.HirBlock),
      ¬(s.unsafety = RustcTypeck.Unsafety.unsafeTag ∧ s.from_fn = true) →
      blk.rules = RustcTypeck.BlockCheckMode.popUnsafeBlock →
      s.recurse blk = some s' →
      s.unsafe_push_count = s'.unsafe_push_count + 1) := by
  refine ⟨fun s blk => rfl, ?_, ?_, ?_⟩
  · intro s blk hu hf
    simp [RustcTypeck.UnsafetyState.recurse, hu, hf]
  · intro s s' blk hns hrules h
    rcases s with ⟨d, u, c, f⟩
    rcases u with _ | _ <;> rcases f with _ | _ <;>
      simp_all [RustcTypeck.UnsafetyState.recurse, RustcTypeck.u32CheckedAdd] <;>
      · rcases h with ⟨hle, rfl⟩
        rfl
  · intro s s' blk hns hrules h
    rcases s with ⟨d, u, c, f⟩
    rcases u with _ | _ <;> rcases f with _ | _ <;>
      simp_all [RustcTypeck.UnsafetyState.recurse, RustcTypeck.u32CheckedSub] <;>
      · rcases h with ⟨hle, rfl⟩
        simp
        omega

/-- Witness for C9: the theorem applied at concrete states: an
unsafe-from-fn state is returned unchanged, a push on counter 3 yields 4,
a pop on counter 4 yields 3. -/
theorem c9_recurse_functional_witness :
    ({ defId := 7, unsafety := RustcTypeck.Unsafety.unsafeTag,
       unsafe_push_count := 2, from_fn := true : RustcTypeck.UnsafetyState }.recurse
        ⟨RustcTypeck.BlockCheckMode.defaultBlock, 9⟩ =
      some { defId := 7, unsafety := RustcTypeck.Unsafety.unsafeTag,
             unsafe_push_count := 2, from_fn := true }) ∧
    ({ defId := 1, unsafety := RustcTypeck.Unsafety.normal,
       unsafe_push_count := 3, from_fn := false : RustcTypeck.UnsafetyState }.recurse
        ⟨RustcTypeck.BlockCheckMode.pushUnsafeBlock, 9⟩).map
        RustcTypeck.UnsafetyState.unsafe_push_count = some 4 ∧
    ({ defId := 1, unsafety := RustcTypeck.Unsafety.normal,
       unsafe_push_count := 4, from_fn := false : RustcTypeck.UnsafetyState }.recurse
        ⟨RustcTypeck.BlockCheckMode.popUnsafeBlock, 9⟩).map
        RustcTypeck.UnsafetyState.unsafe_push_count = some 3 := by
  refine ⟨c9_recurse_functional.2.1 _ _ rfl rfl, ?_, ?_⟩
  · have h := c9_recurse_functional.2.2.1
      { defId := 1, unsafety := RustcTypeck.Unsafety.normal,
        unsafe_push_count := 3, from_fn := false }
      { defId := 9, unsafety := RustcTypeck.Unsafety.normal,
        unsafe_push_count := 4, from_fn := false }
      ⟨RustcTypeck.BlockCheckMode.pushUnsafeBlock, 9⟩
      (by simp) rfl (by decide)
    decide
  · have h := c9_recurse_functional.2.2.2
      { defId := 1, unsafety := RustcTypeck.Unsafety.normal,
        unsafe_push_count := 4, from_fn := false }
      { defId := 9, unsafety := RustcTypeck.Unsafety.normal,
        unsafe_push_count := 3, from_fn := false }
      ⟨RustcTypeck.BlockCheckMode.popUnsafeBlock, 9⟩
      (by simp) rfl (by decide)
    decide

/-- Claim C10: outside the `(Unsafe, from_fn)` short-circuit arm, `recurse`
on a pop-unsafe block panics (modelled as `none`) exactly when the nesting
counter is 0, and on a push-unsafe block exactly when the counter is
`u32::MAX`; with balanced pops and depth below `2^32` both branches are
total. -/
theorem c10_recurse_partiality :
    ∀ (s : RustcTypeck.UnsafetyState) (blk : RustcTypeck.HirBlock),
      ¬(s.unsafety = RustcTypeck.Unsafety.unsafeTag ∧ s.from_fn = true) →
      s.unsafe_push_count ≤ RustcTypeck.u32Max →
      ((blk.rules = RustcTypeck.BlockCheckMode.popUnsafeBlock →
          (s.recurse blk = none ↔ s.unsafe_push_count = 0)) ∧
       (blk.rules = RustcTypeck.BlockCheckMode.pushUnsafeBlock →
          (s.recurse blk = none ↔ s.unsafe_push_count = RustcTypeck.u32Max)) ∧
       (blk.rules = RustcTypeck.BlockCheckMode.popUnsafeBlock →
          0 < s.unsafe_push_count → (s.recurse blk).isSome = true) ∧
       (blk.rules = RustcTypeck.BlockCheckMode.pushUnsafeBlock →
          s.unsafe_push_count < RustcTypeck.u32Max → (s.recurse blk).isSome = true)) := by
  intro s blk hns hle
  rcases s with ⟨d, u, c, f⟩
  simp only at hns hle
  have hbranch : ∀ r : RustcTypeck.BlockCheckMode,
      RustcTypeck.UnsafetyState.recurse ⟨d, u, c, f⟩ ⟨r, blk.hir_id⟩ =
      match r with
      | RustcTypeck.BlockCheckMode.pushUnsafeBlock =>
        (RustcTypeck.u32CheckedAdd c 1).map fun cnt =>
          { defId := blk.hir_id, unsafety := u, unsafe_push_count := cnt, from_fn := false }
      | RustcTypeck.BlockCheckMode.popUnsafeBlock =>
        (RustcTypeck.u32CheckedSub c 1).map fun cnt =>
          { defId := blk.hir_id, unsafety := u, unsafe_push_count := cnt, from_fn := false }
      | RustcTypeck.BlockCheckMode.unsafeBlock =>
        some { defId := blk.hir_id, unsafety := RustcTypeck.Unsafety.unsafeTag,
               unsafe_push_count := c, from_fn := false }
      | RustcTypeck.BlockCheckMode.defaultBlock =>
        some { defId := d, unsafety := u, unsafe_push_count := c, from_fn := false } := by
    intro r
    rcases u with _ | _ <;> rcases f with _ | _ <;> simp_all [RustcTypeck.UnsafetyState.recurse]
  obtain ⟨r, hid⟩ := blk
  dsimp only at hle ⊢
  refine ⟨?_, ?_, ?_, ?_⟩ <;> intro hr
  · subst hr
    rw [hbranch]
    simp only [RustcTypeck.u32CheckedSub, Option.map_eq_none']
    constructor
    · intro h
      by_contra hc
      simp [show 1 ≤ c by omega] at h
    · intro h
      subst h
      simp
  · subst hr
    rw [hbranch]
    simp only [RustcTypeck.u32CheckedAdd, Option.map_eq_none']
    constructor
    · intro h
      by_contra hc
      simp [show c + 1 ≤ RustcTypeck.u32Max by omega] at h
    · intro h
      subst h
      simp
  · intro hpos
    subst hr
    rw [hbranch]
    simp [RustcTypeck.u32CheckedSub, show 1 ≤ c by omega]
  · intro hlt
    subst hr
    rw [hbranch]
    simp [RustcTypeck.u32CheckedAdd, show c + 1 ≤ RustcTypeck.u32Max by omega]

/-- Witness for C10: the theorem applied at a concrete normal-mode state with
counter 0: a pop panics (evaluates to `none`) and a push succeeds. -/
theorem c10_recurse_partiality_witness :
    ({ defId := 1, unsafety := RustcTypeck.Unsafety.normal,
       unsafe_push_count := 0, from_fn := true : RustcTypeck.UnsafetyState }.recurse
        ⟨RustcTypeck.BlockCheckMode.popUnsafeBlock, 5⟩ = none) ∧
    ({ defId := 1, unsafety := RustcTypeck.Unsafety.normal,
       unsafe_push_count := 0, from_fn := true : RustcTypeck.UnsafetyState }.recurse
        ⟨RustcTypeck.BlockCheckMode.pushUnsafeBlock, 5⟩).isSome = true := by
  have h := c10_recurse_partiality
    { defId := 1, unsafety := RustcTypeck.Unsafety.normal,
      unsafe_push_count := 0, from_fn := true }
    ⟨RustcTypeck.BlockCheckMode.popUnsafeBlock, 5⟩
    (by simp) (by decide)
  have h2 := c10_recurse_partiality
    { defId := 1, unsafety := RustcTypeck.Unsafety.normal,
      unsafe_push_count := 0, from_fn := true }
    ⟨RustcTypeck.BlockCheckMode.pushUnsafeBlock, 5⟩
    (by simp) (by decide)
  exact ⟨(h.1 rfl).mpr rfl, h2.2.2.2 rfl (by decide)⟩

end RustcTypeck
